import Mathlib

/-!
Verification of the argument-resolution routine (`resolveArgs`) of
`src/Util.js` against its natural-language specification.

The JavaScript source is shallowly embedded: JS runtime values are the
inductive `JSVal`, spec entries (strings or predicate functions) are
`SpecEntry`, and a JS object accumulating `result[key] = value`
assignments is an insertion-ordered association list `ObjMap`.
-/

set_option autoImplicit false

namespace Morearty

/-- JS runtime values needed by the claims: `undefined`, `null`, strings,
numbers (modelled as integers) and booleans. -/
inductive JSVal : Type where
  | undef : JSVal
  | null : JSVal
  | str : String → JSVal
  | num : Int → JSVal
  | bool : Bool → JSVal
deriving DecidableEq, Repr

/-- A spec entry is either a string (required name, or optional name when it
starts with the marker character) or a unary predicate function (the case
where `typeof spec` is `function`). -/
inductive SpecEntry : Type where
  | str : String → SpecEntry
  | fn : (JSVal → JSVal) → SpecEntry

/-- JS truthiness of a value (`if (name)`): `undefined`, `null`, the empty
string, `0` and `false` are falsy. -/
def truthy : JSVal → Bool
  | JSVal.undef => false
  | JSVal.null => false
  | JSVal.str s => s ≠ ""
  | JSVal.num n => n ≠ 0
  | JSVal.bool b => b

/-- JS property-key coercion `String(v)` for the values of `JSVal`, used by
`result[name] = arg` when `name` is not already a string. -/
def keyOf : JSVal → String
  | JSVal.undef => "undefined"
  | JSVal.null => "null"
  | JSVal.str s => s
  | JSVal.num n => toString n
  | JSVal.bool b => cond b "true" "false"

/-- A JS object used as a string-keyed map, kept in insertion order. -/
abbrev ObjMap : Type := List (String × JSVal)

/-- `obj[k] = v` on a JS object: overwrite in place if the key exists
(keeping its insertion position), otherwise append. -/
def objSet : ObjMap → String → JSVal → ObjMap
  | [], k, v => [(k, v)]
  | (k', v') :: rest, k, v =>
    if k' = k then (k', v) :: rest else (k', v') :: objSet rest k v

/-- Property lookup on the object model. -/
def objGet : ObjMap → String → Option JSVal
  | [], _ => none
  | (k', v') :: rest, k => if k' = k then some v' else objGet rest k

/-- `Util.js` line 16: a spec is required when it is a string whose
`charAt(0)` differs from the marker `?`. Note that `charAt(0)` of the
empty string is the empty string, which differs from the marker, so the
empty string counts as required. -/
def isRequired : SpecEntry → Bool
  | SpecEntry.str s => decide (s.data.head? ≠ some '?')
  | SpecEntry.fn _ => false

/-- `isRequired(specs[0])` where `specs[0]` of an empty array is
`undefined`, for which `typeof` is not `'string'`, hence `false`. -/
def isRequiredHead (specs : List SpecEntry) : Bool :=
  match specs.head? with
  | some s => isRequired s
  | none => false

/-- The scan of `findTurningPoint` from index 1 onward: return the first
index whose classification differs from `first`, else `null`. -/
def findTPAux (first : Bool) : List SpecEntry → Nat → Option Nat
  | [], _ => none
  | s :: rest, i =>
    if isRequired s ≠ first then some i else findTPAux first rest (i + 1)

/-- `Util.js` lines 20-26: `first = pred(arr[0])`, then the first `i ≥ 1`
with `pred(arr[i]) !== first`, else `null`. For an empty array the loop
body never runs and `null` is returned. -/
def findTurningPoint : List SpecEntry → Option Nat
  | [] => none
  | s :: rest => findTPAux (isRequired s) rest 1

/-- The index actually used by `Array.prototype.slice(begin)`: a negative
`begin` counts from the end (clamped at 0), a nonnegative one is clamped
at the length. -/
def jsSliceIndex (len : Nat) (b : Int) : Nat :=
  if b < 0 then ((len : Int) + b).toNat else min b.toNat len

/-- `Util.js` lines 28-30:
`arr.slice(splitAt).reverse().concat(arr.slice(0, splitAt))`.
Note the `.reverse()`: the trailing slice is moved to the front REVERSED. -/
def prepare {α : Type} (arr : List α) (splitAt : Int) : List α :=
  (arr.drop (jsSliceIndex arr.length splitAt)).reverse
    ++ arr.take (jsSliceIndex arr.length splitAt)

/-- The name computed for a non-required spec entry (`Util.js` line 180):
a predicate spec is applied to the argument; a string spec yields itself
when its first character differs from the marker `?`, else the string
after the marker (`spec.substring(1)`). -/
def specName : SpecEntry → JSVal → JSVal
  | SpecEntry.fn f, arg => f arg
  | SpecEntry.str s, _ =>
    if s.data.head? ≠ some '?' then JSVal.str s else JSVal.str (s.drop 1)

/-- The key used by `result[spec] = arg` in the required branch (the spec
string itself; the function case is unreachable there). -/
def reqKey : SpecEntry → String
  | SpecEntry.str s => s
  | SpecEntry.fn _ => ""

/-- `Util.js` lines 173-186: the matching loop. The spec cursor is the
structural recursion, the argument cursor is `argIndex`; the loop stops
when either list is exhausted. A required entry binds unconditionally and
advances both cursors; otherwise the computed name binds (and the argument
cursor advances) when the name is truthy or the argument is `undefined`. -/
def resolveLoop (pArgs : List JSVal) : List SpecEntry → Nat → ObjMap → ObjMap
  | [], _, res => res
  | spec :: rest, argIndex, res =>
    match pArgs[argIndex]? with
    | none => res
    | some arg =>
      if isRequired spec then
        resolveLoop pArgs rest (argIndex + 1) (objSet res (reqKey spec) arg)
      else
        let name := specName spec arg
        if truthy name = true ∨ arg = JSVal.undef then
          resolveLoop pArgs rest (argIndex + 1) (objSet res (keyOf name) arg)
        else
          resolveLoop pArgs rest argIndex res

/-- `Util.js` lines 157-190, for a call `resolveArgs(args, specs)` with
`specs` passed as an array. If the first spec is required or no turning
point exists, the lists are processed as given; otherwise both are passed
through `prepare`, the args list split at
`args.length - (specs.length - turningPoint)`. -/
def resolveArgs (args : List JSVal) (specs : List SpecEntry) : ObjMap :=
  if isRequiredHead specs then
    resolveLoop args specs 0 []
  else
    match findTurningPoint specs with
    | none => resolveLoop args specs 0 []
    | some t =>
      let preparedSpecs := prepare specs (t : Int)
      let preparedArgs :=
        prepare args ((args.length : Int) - ((specs.length : Int) - (t : Int)))
      resolveLoop preparedArgs preparedSpecs 0 []

/-- The predicate of spec test C1: returns the name `x` when the argument
is a number, else `null`. -/
def numPred : JSVal → JSVal
  | JSVal.num _ => JSVal.str "x"
  | _ => JSVal.null

/-- A predicate that rejects every argument (always returns `null`). -/
def alwaysNull : JSVal → JSVal := fun _ => JSVal.null

end Morearty

/-! ### Basic lemmas about the object model -/

namespace Morearty

/-- Setting a key absent from the object appends the pair at the end. -/
theorem objSet_of_objGet_none (res : ObjMap) (k : String) (v : JSVal)
    (h : objGet res k = none) : objSet res k v = res ++ [(k, v)] := by
  induction res with
  | nil => rfl
  | cons p rest ih =>
    obtain ⟨k2, v2⟩ := p
    by_cases hk : k2 = k
    · simp [objGet, hk] at h
    · simp only [objGet, if_neg hk] at h
      simp [objSet, if_neg hk, ih h]

/-- Setting one key does not affect lookups of another key. -/
theorem objGet_objSet_of_ne (res : ObjMap) (k s : String) (v : JSVal)
    (h : k ≠ s) : objGet (objSet res k v) s = objGet res s := by
  induction res with
  | nil =>
    simp only [objSet, objGet]
    rw [if_neg h]
  | cons p rest ih =>
    obtain ⟨k2, v2⟩ := p
    by_cases hk : k2 = k
    · subst hk
      simp [objSet, objGet, fun hh => h hh]
    · simp only [objSet, if_neg hk, objGet]
      by_cases hs : k2 = s
      · simp [hs]
      · simp [hs, ih]

/-- A property assignment grows the object by at most one entry. -/
theorem objSet_length_le (res : ObjMap) (k : String) (v : JSVal) :
    (objSet res k v).length ≤ res.length + 1 := by
  induction res with
  | nil => simp [objSet]
  | cons p rest ih =>
    obtain ⟨k2, v2⟩ := p
    by_cases hk : k2 = k
    · simp [objSet, hk]
    · simp only [objSet, if_neg hk, List.length_cons]
      omega

/-! ### Lemmas about slicing and the turning point -/

/-- The clamped slice index never exceeds the array length. -/
theorem jsSliceIndex_le (len : Nat) (b : Int) : jsSliceIndex len b ≤ len := by
  unfold jsSliceIndex
  split <;> omega

/-- For an in-range natural split point the clamped index is itself. -/
theorem jsSliceIndex_natCast (len t : Nat) (h : t ≤ len) :
    jsSliceIndex len (t : Int) = t := by
  unfold jsSliceIndex
  rw [if_neg (by omega : ¬((t : Int) < 0)), min_def]
  have ht : (t : Int).toNat = t := rfl
  split
  · exact ht
  · rename_i hc
    rw [ht] at hc
    exact absurd h hc

/-- `prepare` permutes the array, so it preserves the length. -/
theorem prepare_length {α : Type} (arr : List α) (b : Int) :
    (prepare arr b).length = arr.length := by
  have h := jsSliceIndex_le arr.length b
  simp [prepare]
  omega

/-- `prepare` at an in-range natural split point is the reversed trailing
slice followed by the leading slice. -/
theorem prepare_natCast {α : Type} (arr : List α) (t : Nat) (h : t ≤ arr.length) :
    prepare arr (t : Int) = (arr.drop t).reverse ++ arr.take t := by
  simp [prepare, jsSliceIndex_natCast _ _ h]

/-- The scan of `findTPAux` only returns indices below the end of the scan. -/
theorem findTPAux_lt (first : Bool) :
    ∀ (l : List SpecEntry) (i t : Nat), findTPAux first l i = some t → t < i + l.length := by
  intro l
  induction l with
  | nil => intro i t h; simp [findTPAux] at h
  | cons s rest ih =>
    intro i t h
    unfold findTPAux at h
    split at h
    · simp only [Option.some.injEq] at h
      simp only [List.length_cons]
      omega
    · have := ih (i + 1) t h
      simp only [List.length_cons]
      omega

/-- A turning point is a valid index into the spec list. -/
theorem findTurningPoint_lt (specs : List SpecEntry) (t : Nat)
    (h : findTurningPoint specs = some t) : t < specs.length := by
  cases specs with
  | nil => simp [findTurningPoint] at h
  | cons s rest =>
    have := findTPAux_lt (isRequired s) rest 1 t h
    simp only [List.length_cons]
    omega

end Morearty

/-! ### Lemmas about the matching loop -/

namespace Morearty

/-- Each loop iteration consumes one spec entry, adds at most one binding,
and every binding consumes one argument position, so the object grows by
at most the number of specs and at most the number of remaining args. -/
theorem resolveLoop_length (pArgs : List JSVal) :
    ∀ (specs : List SpecEntry) (i : Nat) (res : ObjMap),
      (resolveLoop pArgs specs i res).length
        ≤ res.length + min specs.length (pArgs.length - i) := by
  intro specs
  induction specs with
  | nil => intro i res; simp [resolveLoop]
  | cons spec rest ih =>
    intro i res
    cases hget : pArgs[i]? with
    | none =>
      simp [resolveLoop, hget]
    | some arg =>
      have hi : i < pArgs.length := by
        by_contra hlt
        push_neg at hlt
        rw [List.getElem?_eq_none hlt] at hget
        exact Option.noConfusion hget
      simp only [resolveLoop, hget]
      by_cases hreq : isRequired spec = true
      · rw [if_pos hreq]
        have h1 := ih (i + 1) (objSet res (reqKey spec) arg)
        have h2 := objSet_length_le res (reqKey spec) arg
        simp only [List.length_cons]
        omega
      · rw [if_neg hreq]
        by_cases hcond : truthy (specName spec arg) = true ∨ arg = JSVal.undef
        · rw [if_pos hcond]
          have h1 := ih (i + 1) (objSet res (keyOf (specName spec arg)) arg)
          have h2 := objSet_length_le res (keyOf (specName spec arg)) arg
          simp only [List.length_cons]
          omega
        · rw [if_neg hcond]
          have h1 := ih i res
          simp only [List.length_cons]
          omega

/-- Zipping against a list truncated to the left length changes nothing. -/
theorem zip_take_length {α β : Type} (l : List α) (l2 : List β) :
    l.zip (l2.take l.length) = l.zip l2 := by
  induction l generalizing l2 with
  | nil => simp
  | cons a rest ih =>
    cases l2 with
    | nil => simp
    | cons b rest2 => simp [ih]

/-- On a run of pairwise-distinct required names with enough arguments, the
loop binds each name to the argument at the same position, appending the
pairs in order after the accumulated object. -/
theorem resolveLoop_required (args : List JSVal) :
    ∀ (names : List String) (i : Nat) (res : ObjMap),
      (∀ s ∈ names, s.data.head? ≠ some '?') →
      names.Nodup →
      (∀ s ∈ names, objGet res s = none) →
      i + names.length ≤ args.length →
      resolveLoop args (names.map SpecEntry.str) i res
        = res ++ names.zip (args.drop i) := by
  intro names
  induction names with
  | nil =>
    intro i res _ _ _ _
    simp [resolveLoop]
  | cons n rest ih =>
    intro i res hq hnd hfresh hlen
    have hi : i < args.length := by
      simp only [List.length_cons] at hlen
      omega
    have hget : args[i]? = some args[i] := List.getElem?_eq_getElem hi
    have hreq : isRequired (SpecEntry.str n) = true := by
      simp only [isRequired, decide_eq_true_eq]
      exact hq n (List.mem_cons_self n rest)
    simp only [List.map_cons, resolveLoop, hget, if_pos hreq]
    have hfresh2 : ∀ s ∈ rest, objGet (objSet res n args[i]) s = none := by
      intro s hs
      have hns : n ≠ s := by
        intro hcontra
        subst hcontra
        exact (List.nodup_cons.mp hnd).1 hs
      rw [objGet_objSet_of_ne res n s args[i] hns]
      exact hfresh s (List.mem_cons_of_mem n hs)
    rw [show reqKey (SpecEntry.str n) = n from rfl]
    rw [ih (i + 1) (objSet res n args[i])
        (fun s hs => hq s (List.mem_cons_of_mem n hs))
        (List.nodup_cons.mp hnd).2 hfresh2
        (by simp only [List.length_cons] at hlen; omega)]
    rw [objSet_of_objGet_none res n args[i] (hfresh n (List.mem_cons_self n rest))]
    rw [List.drop_eq_getElem_cons hi, List.zip_cons_cons, List.append_assoc,
      List.singleton_append]

/-- `resolveArgs` with an empty spec list: the head is not a required
string, no turning point exists, and the loop has nothing to match. -/
theorem resolveArgs_nil_specs (args : List JSVal) : resolveArgs args [] = [] := rfl

end Morearty

/-! ### A heap model of the array mutation actually performed

`prepare` runs `slice` (allocates a fresh array), `reverse` (mutates that
fresh array in place) and `concat` (allocates again). To state that
`resolveArgs` never modifies its inputs, arrays are modelled as references
into a store; every reference below `next` is allocated. -/

namespace Morearty

/-- A store of arrays of `α`: `next` is the next free reference, `mem`
gives the contents of each reference. -/
structure Store (α : Type) where
  next : Nat
  mem : Nat → List α

/-- Allocate a fresh array holding `xs`; returns the new store and the
fresh reference. -/
def Store.alloc {α : Type} (st : Store α) (xs : List α) : Store α × Nat :=
  (⟨st.next + 1, fun q => if q = st.next then xs else st.mem q⟩, st.next)

/-- Overwrite the contents of reference `r` in place. -/
def Store.write {α : Type} (st : Store α) (r : Nat) (xs : List α) : Store α :=
  ⟨st.next, fun q => if q = r then xs else st.mem q⟩

/-- `Util.js` lines 28-30 as heap steps: `arr.slice(splitAt)` allocates a
fresh array, `.reverse()` mutates that fresh array in place, and
`.concat(arr.slice(0, splitAt))` allocates the result. -/
def heapPrepare {α : Type} (st : Store α) (r : Nat) (splitAt : Int) : Store α × Nat :=
  let i := jsSliceIndex (st.mem r).length splitAt
  let a1 := st.alloc ((st.mem r).drop i)
  let st2 := a1.1.write a1.2 ((a1.1.mem a1.2).reverse)
  st2.alloc (st2.mem a1.2 ++ (st2.mem r).take i)

/-- `resolveArgs` over stores: the rotation branch allocates prepared
copies and the matching loop reads them; the no-rotation branches read the
input references directly and never write. -/
def resolveArgsHeap (sa : Store JSVal) (ra : Nat) (ss : Store SpecEntry) (rs : Nat) :
    Store JSVal × Store SpecEntry × ObjMap :=
  if isRequiredHead (ss.mem rs) then
    (sa, ss, resolveLoop (sa.mem ra) (ss.mem rs) 0 [])
  else
    match findTurningPoint (ss.mem rs) with
    | none => (sa, ss, resolveLoop (sa.mem ra) (ss.mem rs) 0 [])
    | some t =>
      let ps := heapPrepare ss rs (t : Int)
      let pa := heapPrepare sa ra
        (((sa.mem ra).length : Int) - (((ss.mem rs).length : Int) - (t : Int)))
      (pa.1, ps.1, resolveLoop (pa.1.mem pa.2) (ps.1.mem ps.2) 0 [])

/-- `heapPrepare` writes only to freshly allocated references: every
reference allocated before the call keeps its contents. -/
theorem heapPrepare_frame {α : Type} (st : Store α) (r0 : Nat) (s : Int)
    (r : Nat) (h : r < st.next) : (heapPrepare st r0 s).1.mem r = st.mem r := by
  have h1 : r ≠ st.next + 1 := by omega
  have h2 : r ≠ st.next := by omega
  simp [heapPrepare, Store.alloc, Store.write, h1, h2]

/-- The array `heapPrepare` returns holds exactly `prepare` of the source
contents, provided the source reference is a live allocation. -/
theorem heapPrepare_val {α : Type} (st : Store α) (r0 : Nat) (s : Int)
    (h : r0 < st.next) :
    (heapPrepare st r0 s).1.mem (heapPrepare st r0 s).2 = prepare (st.mem r0) s := by
  have h1 : r0 ≠ st.next := by omega
  simp [heapPrepare, Store.alloc, Store.write, prepare, h1]

/-- The mapping computed by the heap-level resolver is the pure
`resolveArgs` of the two referenced arrays. -/
theorem resolveArgsHeap_spec (sa : Store JSVal) (ra : Nat) (ss : Store SpecEntry)
    (rs : Nat) (ha : ra < sa.next) (hs : rs < ss.next) :
    (resolveArgsHeap sa ra ss rs).2.2 = resolveArgs (sa.mem ra) (ss.mem rs) := by
  unfold resolveArgsHeap resolveArgs
  by_cases h1 : isRequiredHead (ss.mem rs) = true
  · simp [h1]
  · rw [if_neg h1, if_neg h1]
    cases h2 : findTurningPoint (ss.mem rs) with
    | none => simp
    | some t =>
      simp only
      rw [heapPrepare_val sa ra _ ha, heapPrepare_val ss rs _ hs]

end Morearty

/-! ### Concrete stores used to instantiate the heap-level theorems -/

namespace Morearty

/-- A store with one allocated array of arguments at reference 0. -/
def argsStoreA : Store JSVal := ⟨1, fun _ => [JSVal.str "text", JSVal.num 2]⟩

/-- A store with one allocated array of specs at reference 0. -/
def specsStoreA : Store SpecEntry := ⟨1, fun _ => [SpecEntry.str "?a", SpecEntry.str "b"]⟩

/-- A second store holding the same argument values at reference 1. -/
def argsStoreB : Store JSVal := ⟨2, fun _ => [JSVal.str "text", JSVal.num 2]⟩

/-- A second store holding the same spec values at reference 1. -/
def specsStoreB : Store SpecEntry := ⟨2, fun _ => [SpecEntry.str "?a", SpecEntry.str "b"]⟩

/-! ### The claims -/

/-- C1, counterexample: for the spec list `[fn, "b"]` with `fn` accepting
only numbers, and arguments `["text", 2]`, the claim says `b` is bound to
`"text"`; in fact the list has a turning point at 1, so it is rotated and
`b` (matched first, against the rotated-first argument) is bound to `2`,
not to `"text"`. -/
theorem c1_counterexample :
    objGet (resolveArgs [JSVal.str "text", JSVal.num 2]
        [SpecEntry.fn numPred, SpecEntry.str "b"]) "b" = some (JSVal.num 2)
    ∧ (some (JSVal.num 2) : Option JSVal) ≠ some (JSVal.str "text") := by
  refine ⟨by decide, by decide⟩

/-- C1, amended: for the spec list `[fn, "b"]` (predicate accepting only
numbers, then required name) and arguments `["text", 2]`, the resolver
rotates at turning point 1, binds `b` to `2`, and the predicate rejects
`"text"`, so the resulting mapping is exactly `{b: 2}`. -/
theorem c1_predicate_spec_example :
    resolveArgs [JSVal.str "text", JSVal.num 2]
        [SpecEntry.fn numPred, SpecEntry.str "b"]
      = [("b", JSVal.num 2)] := by
  decide

/-- C2, counterexample: for specs `["?a", "?b", "c"]` and arguments
`[1, 2]` the claim binds `c` to `1`; the code binds `c` to `2`. -/
theorem c2_counterexample :
    objGet (resolveArgs [JSVal.num 1, JSVal.num 2]
        [SpecEntry.str "?a", SpecEntry.str "?b", SpecEntry.str "c"]) "c"
      ≠ some (JSVal.num 1) := by
  decide

/-- C2, amended: for specs `["?a", "?b", "c"]` and arguments `[1, 2]` the
turning point is index 2, and the resolver returns the mapping binding `c`
to `2` and `a` to `1` (`b` is unbound). -/
theorem c2_rotation_example :
    findTurningPoint [SpecEntry.str "?a", SpecEntry.str "?b", SpecEntry.str "c"] = some 2
    ∧ resolveArgs [JSVal.num 1, JSVal.num 2]
        [SpecEntry.str "?a", SpecEntry.str "?b", SpecEntry.str "c"]
      = [("c", JSVal.num 2), ("a", JSVal.num 1)] := by
  refine ⟨by decide, by decide⟩

/-- C3, counterexample: the reordering is NOT the order-preserving rotation.
`prepare` of `[1, 2, 3]` at split 1 yields `[3, 2, 1]` (moved segment
reversed), not `[2, 3, 1]`; observably, for specs `["?a", "b", "c"]` and
the single argument `[1]` the resolver yields `{c: 1}`, while processing
the order-preserving rotation `["b", "c", "?a"]` against the same argument
would yield `{b: 1}`. -/
theorem c3_counterexample :
    prepare [JSVal.num 1, JSVal.num 2, JSVal.num 3] (1 : Int)
      = [JSVal.num 3, JSVal.num 2, JSVal.num 1]
    ∧ prepare [JSVal.num 1, JSVal.num 2, JSVal.num 3] (1 : Int)
      ≠ [JSVal.num 2, JSVal.num 3, JSVal.num 1]
    ∧ resolveArgs [JSVal.num 1] [SpecEntry.str "?a", SpecEntry.str "b", SpecEntry.str "c"]
      = [("c", JSVal.num 1)]
    ∧ resolveLoop [JSVal.num 1] [SpecEntry.str "b", SpecEntry.str "c", SpecEntry.str "?a"] 0 []
      = [("b", JSVal.num 1)]
    ∧ ([("c", JSVal.num 1)] : ObjMap) ≠ [("b", JSVal.num 1)] := by
  refine ⟨by decide, by decide, by decide, by decide, by decide⟩

/-- C3, amended: when the spec list begins with optional entries and has
turning point `t`, the spec list processed by the resolver is the REVERSE
of `specs[t..]` followed by `specs[0..t)` in original order, and the
argument list is split at the clamped index
`len(args) - (len(specs) - t)` with its trailing slice likewise reversed
and moved to the front. -/
theorem c3_rotated_segments (specs : List SpecEntry) (args : List JSVal) (t : Nat)
    (h1 : isRequiredHead specs = false) (h2 : findTurningPoint specs = some t) :
    resolveArgs args specs =
      resolveLoop
        ((args.drop (jsSliceIndex args.length
            ((args.length : Int) - ((specs.length : Int) - (t : Int))))).reverse
          ++ args.take (jsSliceIndex args.length
            ((args.length : Int) - ((specs.length : Int) - (t : Int)))))
        ((specs.drop t).reverse ++ specs.take t) 0 [] := by
  have ht : t ≤ specs.length := le_of_lt (findTurningPoint_lt specs t h2)
  unfold resolveArgs
  rw [if_neg (by simp [h1])]
  simp only [h2]
  rw [prepare_natCast specs t ht]
  rfl

/-- Witness for C3: specs `["?a", "b", "c"]`, arguments `[1, 2, 3]`,
turning point 1; the resolver processes `["c", "b", "?a"]` against
`[3, 2, 1]` and produces that exact mapping. -/
theorem c3_rotated_segments_witness :
    resolveArgs [JSVal.num 1, JSVal.num 2, JSVal.num 3]
        [SpecEntry.str "?a", SpecEntry.str "b", SpecEntry.str "c"]
      = [("c", JSVal.num 3), ("b", JSVal.num 2), ("a", JSVal.num 1)] :=
  (c3_rotated_segments [SpecEntry.str "?a", SpecEntry.str "b", SpecEntry.str "c"]
    [JSVal.num 1, JSVal.num 2, JSVal.num 3] 1 (by decide) (by decide)).trans (by decide)

/-- C4, counterexample: a predicate returning a falsy name against the
argument `undefined` DOES add a binding (under the stringified falsy name)
and advances the argument cursor, instead of falling through. -/
theorem c4_counterexample :
    resolveArgs [JSVal.undef] [SpecEntry.fn alwaysNull] = [("null", JSVal.undef)]
    ∧ resolveArgs [JSVal.undef] [SpecEntry.fn alwaysNull] ≠ ([] : ObjMap) := by
  refine ⟨by decide, by decide⟩

/-- C4, amended: when a predicate spec entry returns a falsy name for the
current argument, the entry is skipped without binding and without
advancing the argument cursor for every argument value EXCEPT `undefined`;
when the argument is `undefined`, the binding is added under the coerced
falsy name and the argument cursor advances. The spec cursor advances in
both cases. -/
theorem c4_predicate_fallthrough (pArgs : List JSVal) (rest : List SpecEntry)
    (f : JSVal → JSVal) (i : Nat) (res : ObjMap) (arg : JSVal)
    (h1 : pArgs[i]? = some arg) (h2 : truthy (f arg) = false) :
    (arg ≠ JSVal.undef →
      resolveLoop pArgs (SpecEntry.fn f :: rest) i res = resolveLoop pArgs rest i res)
    ∧ (arg = JSVal.undef →
      resolveLoop pArgs (SpecEntry.fn f :: rest) i res
        = resolveLoop pArgs rest (i + 1) (objSet res (keyOf (f arg)) arg)) := by
  constructor
  · intro hne
    simp only [resolveLoop, h1]
    rw [if_neg (by simp [isRequired])]
    simp only [specName]
    rw [if_neg (by rw [h2]; simp [hne])]
  · intro he
    simp only [resolveLoop, h1]
    rw [if_neg (by simp [isRequired])]
    simp only [specName]
    rw [if_pos (Or.inr he)]

/-- Witness for C4: the rejecting predicate skips the argument `5` without
consuming it, and binds the argument `undefined` under the key `null`. -/
theorem c4_predicate_fallthrough_witness :
    resolveLoop [JSVal.num 5] [SpecEntry.fn alwaysNull] 0 []
      = resolveLoop [JSVal.num 5] [] 0 []
    ∧ resolveLoop [JSVal.undef] [SpecEntry.fn alwaysNull] 0 []
      = resolveLoop [JSVal.undef] [] 1
          (objSet [] (keyOf (alwaysNull JSVal.undef)) JSVal.undef) :=
  ⟨(c4_predicate_fallthrough [JSVal.num 5] [] alwaysNull 0 [] (JSVal.num 5)
      (by decide) (by decide)).1 (by decide),
   (c4_predicate_fallthrough [JSVal.undef] [] alwaysNull 0 [] JSVal.undef
      (by decide) (by decide)).2 rfl⟩

/-- C5, counterexample: for specs `["?a", "b"]` (turning point 1) and three
arguments, the trailing slice of the argument list moved to the front has
size 1, while the claimed size `len(args) - (len(specs) - turningPoint)`
is 2 — the claimed formula gives the slice START index, not its size. -/
theorem c5_counterexample :
    findTurningPoint [SpecEntry.str "?a", SpecEntry.str "b"] = some 1
    ∧ (([JSVal.num 1, JSVal.num 2, JSVal.num 3] : List JSVal).drop
        (jsSliceIndex 3 ((3 : Int) - ((2 : Int) - (1 : Int))))).length = 1
    ∧ (1 : Nat) ≠ 3 - (2 - 1) := by
  refine ⟨by decide, by decide, by decide⟩

/-- C5, amended: when rotation applies and
`len(args) ≥ len(specs) - turningPoint`, the trailing slice of the
argument list moved to the front has size `len(specs) - turningPoint`,
which equals the count of spec entries moved to the FRONT of the rotated
spec list; `len(args) - (len(specs) - turningPoint)` is instead the size
of the leading remainder (and the start index of the trailing slice). -/
theorem c5_slice_sizes (args : List JSVal) (specs : List SpecEntry) (t : Nat)
    (h1 : findTurningPoint specs = some t)
    (h2 : specs.length - t ≤ args.length) :
    (args.drop (jsSliceIndex args.length
        ((args.length : Int) - ((specs.length : Int) - (t : Int))))).length
      = specs.length - t
    ∧ (args.drop (jsSliceIndex args.length
        ((args.length : Int) - ((specs.length : Int) - (t : Int))))).length
      = (specs.drop t).length
    ∧ (args.take (jsSliceIndex args.length
        ((args.length : Int) - ((specs.length : Int) - (t : Int))))).length
      = args.length - (specs.length - t) := by
  have ht : t ≤ specs.length := le_of_lt (findTurningPoint_lt specs t h1)
  have hneg : ¬(((args.length : Int) - ((specs.length : Int) - (t : Int))) < 0) := by
    omega
  have hk : jsSliceIndex args.length
      ((args.length : Int) - ((specs.length : Int) - (t : Int)))
      = args.length - (specs.length - t) := by
    unfold jsSliceIndex
    rw [if_neg hneg, min_def]
    have htn : ((args.length : Int) - ((specs.length : Int) - (t : Int))).toNat
        = args.length - (specs.length - t) := by omega
    rw [htn]
    split
    · rfl
    · rename_i hc
      omega
  rw [hk]
  refine ⟨?_, ?_, ?_⟩
  · rw [List.length_drop]
    omega
  · rw [List.length_drop, List.length_drop]
    omega
  · rw [List.length_take, min_def]
    split
    · rfl
    · rename_i hc
      omega

/-- Witness for C5: specs `["?a", "b"]`, arguments `[1, 2, 3]`: the moved
trailing slice has exactly one element. -/
theorem c5_slice_sizes_witness :
    (([JSVal.num 1, JSVal.num 2, JSVal.num 3] : List JSVal).drop
        (jsSliceIndex 3 ((3 : Int) - ((2 : Int) - (1 : Int))))).length = 1 := by
  have h := c5_slice_sizes [JSVal.num 1, JSVal.num 2, JSVal.num 3]
    [SpecEntry.str "?a", SpecEntry.str "b"] 1 (by decide) (by decide)
  simpa using h.1

/-- C6: for a spec list of pairwise-distinct non-empty required names of
length N and at least N arguments, the resolver binds the i-th name to the
i-th argument, in order, and arguments beyond position N are ignored. -/
theorem c6_all_required (names : List String) (args : List JSVal)
    (hne : ∀ s ∈ names, s ≠ "")
    (hq : ∀ s ∈ names, s.data.head? ≠ some '?')
    (hnd : names.Nodup)
    (hlen : names.length ≤ args.length) :
    resolveArgs args (names.map SpecEntry.str) = names.zip (args.take names.length) := by
  rw [zip_take_length]
  cases names with
  | nil =>
    simp [resolveArgs_nil_specs]
  | cons n rest =>
    have hhead : isRequiredHead ((n :: rest).map SpecEntry.str) = true := by
      simp only [List.map_cons, isRequiredHead, List.head?_cons, isRequired,
        decide_eq_true_eq]
      exact hq n (List.mem_cons_self n rest)
    unfold resolveArgs
    rw [if_pos hhead]
    have h := resolveLoop_required args (n :: rest) 0 [] hq hnd
      (fun s _ => rfl) (by simp only [List.length_cons] at hlen ⊢; omega)
    simpa using h

/-- Witness for C6: names `["x", "y"]` against three arguments bind the
first two arguments positionally and ignore the third. -/
theorem c6_all_required_witness :
    resolveArgs [JSVal.num 1, JSVal.num 2, JSVal.num 3]
        (["x", "y"].map SpecEntry.str)
      = [("x", JSVal.num 1), ("y", JSVal.num 2)] :=
  (c6_all_required ["x", "y"] [JSVal.num 1, JSVal.num 2, JSVal.num 3]
    (by decide) (by decide) (by decide) (by decide)).trans (by decide)

/-- C7: with an empty spec list the resolver returns the empty mapping for
every argument list; the resolver is a total function, so no mismatched
lengths can raise an error. -/
theorem c7_empty_specs (args : List JSVal) : resolveArgs args [] = [] :=
  resolveArgs_nil_specs args

/-- C8: resolving the same argument and spec arrays twice — even from
different stores and references holding structurally equal arrays — yields
structurally equal mappings. -/
theorem c8_deterministic (sa : Store JSVal) (ra : Nat) (ss : Store SpecEntry) (rs : Nat)
    (sb : Store JSVal) (rb : Nat) (tt : Store SpecEntry) (rt : Nat)
    (h1 : ra < sa.next) (h2 : rs < ss.next) (h3 : rb < sb.next) (h4 : rt < tt.next)
    (hargs : sa.mem ra = sb.mem rb) (hspecs : ss.mem rs = tt.mem rt) :
    (resolveArgsHeap sa ra ss rs).2.2 = (resolveArgsHeap sb rb tt rt).2.2 := by
  rw [resolveArgsHeap_spec sa ra ss rs h1 h2, resolveArgsHeap_spec sb rb tt rt h3 h4,
    hargs, hspecs]

/-- Witness for C8: two stores holding equal argument and spec arrays at
different references produce the same mapping. -/
theorem c8_deterministic_witness :
    (resolveArgsHeap argsStoreA 0 specsStoreA 0).2.2
      = (resolveArgsHeap argsStoreB 1 specsStoreB 1).2.2 :=
  c8_deterministic argsStoreA 0 specsStoreA 0 argsStoreB 1 specsStoreB 1
    (by decide) (by decide) (by decide) (by decide) rfl rfl

/-- C9: the resolver never modifies its inputs: every array allocated
before the call (in particular the argument and spec arrays themselves)
has unchanged contents afterwards — the rotation writes only to freshly
allocated copies. -/
theorem c9_no_mutation (sa : Store JSVal) (ra : Nat) (ss : Store SpecEntry) (rs : Nat)
    (r q : Nat) (hr : r < sa.next) (hsq : q < ss.next) :
    (resolveArgsHeap sa ra ss rs).1.mem r = sa.mem r
    ∧ (resolveArgsHeap sa ra ss rs).2.1.mem q = ss.mem q := by
  unfold resolveArgsHeap
  by_cases h1 : isRequiredHead (ss.mem rs) = true
  · rw [if_pos h1]
    exact ⟨rfl, rfl⟩
  · rw [if_neg h1]
    cases h2 : findTurningPoint (ss.mem rs) with
    | none => exact ⟨rfl, rfl⟩
    | some t =>
      exact ⟨heapPrepare_frame sa ra _ r hr, heapPrepare_frame ss rs _ q hsq⟩

/-- Witness for C9: after a rotating call, the stores still hold the
original argument and spec arrays at reference 0. -/
theorem c9_no_mutation_witness :
    (resolveArgsHeap argsStoreA 0 specsStoreA 0).1.mem 0 = argsStoreA.mem 0
    ∧ (resolveArgsHeap argsStoreA 0 specsStoreA 0).2.1.mem 0 = specsStoreA.mem 0 :=
  c9_no_mutation argsStoreA 0 specsStoreA 0 0 0 (by decide) (by decide)

/-- C10: the returned mapping has at most `min(len(specs), len(args))`
keys: each loop iteration consumes one spec entry, adds at most one
binding, and each binding consumes one argument position. -/
theorem c10_size_bound (args : List JSVal) (specs : List SpecEntry) :
    (resolveArgs args specs).length ≤ min specs.length args.length := by
  have key : ∀ (P : List JSVal) (S : List SpecEntry),
      P.length = args.length → S.length = specs.length →
      (resolveLoop P S 0 []).length ≤ min specs.length args.length := by
    intro P S hP hS
    have h := resolveLoop_length P S 0 []
    rw [hP, hS] at h
    simpa using h
  unfold resolveArgs
  by_cases h1 : isRequiredHead specs = true
  · rw [if_pos h1]
    exact key args specs rfl rfl
  · rw [if_neg h1]
    cases h2 : findTurningPoint specs with
    | none => exact key args specs rfl rfl
    | some t => exact key _ _ (prepare_length args _) (prepare_length specs _)

end Morearty
